/-
Verification of the Floor Plan Management System's core logic
(meeting-room booking, room suggestion, layout merge) against its
natural-language specification.

The JavaScript source is shallowly embedded: JS objects mapping keys to
layout elements become association lists with unique keys (JS object keys
are unique, iterated in insertion order by Object.entries); the MongoDB
store becomes an explicit record of rooms and bookings; timestamps and
capacities become integers; each controller function becomes a pure Lean
function threading the store state.
-/
import Mathlib

/-! ## Layout merge (utils/conflictResolution.js) -/

/-- A layout element: an opaque payload plus a writer-assigned timestamp. -/
structure LayoutElement (α : Type) where
  value : α
  timestamp : Int
deriving DecidableEq, Repr

/-- A layout, as a JS object: key/element pairs in insertion order.
JS objects cannot hold a key twice; that invariant is `NodupKeysL`. -/
abbrev Layout (α : Type) : Type := List (String × LayoutElement α)

/-- JS property access `layout[key]`: the element at `key`, if present. -/
def getL {α : Type} : Layout α → String → Option (LayoutElement α)
  | [], _ => none
  | (k', v) :: rest, k => if k' = k then some v else getL rest k

/-- JS property assignment `layout[key] = v`: overwrite in place if the key
exists, otherwise append (JS adds new own properties at the end). -/
def assignL {α : Type} : Layout α → String → LayoutElement α → Layout α
  | [], k, v => [(k, v)]
  | (k', v') :: rest, k, v =>
      if k' = k then (k, v) :: rest else (k', v') :: assignL rest k v

/-- The keys of a layout, in order. -/
def keysL {α : Type} (L : Layout α) : List String := L.map Prod.fst

/-- A layout never holds the same key twice (true of every JS object). -/
def NodupKeysL {α : Type} (L : Layout α) : Prop := (keysL L).Nodup

instance {α : Type} (L : Layout α) : Decidable (NodupKeysL L) := by
  unfold NodupKeysL; infer_instance

/-- One iteration of the `for (const [key, value] of Object.entries(newLayout))`
loop body of `resolveConflicts`: the presence test and timestamp comparison
read `existingLayout` (the loop's closure), the assignment updates the
accumulator `resolvedLayout`. -/
def resolveStep {α : Type} (existingLayout : Layout α)
    (resolvedLayout : Layout α) (kv : String × LayoutElement α) : Layout α :=
  match getL existingLayout kv.1 with
  | some e =>
      if kv.2.timestamp > e.timestamp then assignL resolvedLayout kv.1 kv.2
      else resolvedLayout
  | none => assignL resolvedLayout kv.1 kv.2

/-- `exports.resolveConflicts = (existingLayout, newLayout) => ...` from
`utils/conflictResolution.js`: start from a copy of `existingLayout`
(`{ ...existingLayout }`) and fold the loop body over the entries of
`newLayout`. -/
def resolveConflicts {α : Type} (existingLayout newLayout : Layout α) :
    Layout α :=
  newLayout.foldl (resolveStep existingLayout) existingLayout

/-! ## Interval overlap predicates

The booking controller's MongoDB query tests a stored booking `b` against
the requested slot `a` with three clauses; the spec's canonical predicate
is the single half-open test. -/

/-- The spec's canonical half-open overlap: `a.start < b.end AND b.start < a.end`
for intervals `[aS, aE)` and `[bS, bE)`. -/
def overlapsHalfOpen (aS aE bS bE : Int) : Prop := aS < bE ∧ bS < aE

/-- The `$or` of the source's Mongo query in `bookMeetingRoom`, with `bS, bE`
the stored booking's times and `aS, aE` the request's:
`{startTime: {$lt: endTime}, endTime: {$gt: startTime}}` or
`{startTime: {$lte: startTime}, endTime: {$gte: endTime}}` or
`{startTime: {$gte: startTime}, endTime: {$lte: endTime}}`. -/
def srcOverlapCheck (bS bE aS aE : Int) : Prop :=
  (bS < aE ∧ bE > aS) ∨ (bS ≤ aS ∧ bE ≥ aE) ∨ (bS ≥ aS ∧ bE ≤ aE)

instance (bS bE aS aE : Int) : Decidable (srcOverlapCheck bS bE aS aE) := by
  unfold srcOverlapCheck; infer_instance

instance (aS aE bS bE : Int) : Decidable (overlapsHalfOpen aS aE bS bE) := by
  unfold overlapsHalfOpen; infer_instance

/-! ## Store model (models + MongoDB collections) -/

/-- A meeting room document (`models/MeetingRoom`): identity, capacity, and
the `lastBooked` timestamp updated on each successful booking. -/
structure MeetingRoom where
  id : Nat
  capacity : Int
  lastBooked : Int
deriving DecidableEq, Repr

/-- A booking document (`models/Booking`), as created by `bookMeetingRoom`. -/
structure Booking where
  meetingRoom : Nat
  bookedBy : String
  participants : Int
  startTime : Int
  endTime : Int
deriving DecidableEq, Repr

/-- The persistent store: the rooms and bookings collections. -/
structure Store where
  rooms : List MeetingRoom
  bookings : List Booking
deriving DecidableEq, Repr

/-- A `POST /book` request body: `{ roomId, bookedBy, participants, startTime,
endTime }`, plus `now`, the wall-clock instant `new Date()` reads at commit. -/
structure BookRequest where
  roomId : Nat
  bookedBy : String
  participants : Int
  startTime : Int
  endTime : Int
  now : Int
deriving DecidableEq, Repr

/-- The outcome of `bookMeetingRoom`: 404 room not found, 400 capacity
exceeded, 400 slot conflict, or 201 with the new booking. -/
inductive BookResult where
  | notFound
  | capacityExceeded
  | slotConflict
  | booked (b : Booking)
deriving DecidableEq, Repr

/-- `MeetingRoom.findById(roomId)`: the room with that identity, if any. -/
def findRoomById (rooms : List MeetingRoom) (roomId : Nat) :
    Option MeetingRoom :=
  rooms.find? (fun r => r.id == roomId)

/-- The `Booking.find({ meetingRoom: roomId, $or: [...] })` query: bookings of
that room whose interval passes the three-clause overlap test against the
requested `[startTime, endTime)`. -/
def conflictQuery (bookings : List Booking) (roomId : Nat)
    (startTime endTime : Int) : List Booking :=
  bookings.filter (fun b =>
    b.meetingRoom == roomId &&
      decide (srcOverlapCheck b.startTime b.endTime startTime endTime))

/-- The write phase of `bookMeetingRoom`, parameterized by `snapshot`, the
bookings collection as it stood when the `Booking.find` query ran. The
sequential call passes the current collection (see `bookMeetingRoom`);
interleaved calls may pass a stale one, which is exactly the race the code
leaves open. On success a booking is appended and the room's `lastBooked`
is set to `now` (`new Date()`). -/
def bookWithSnapshot (snapshot : List Booking) (s : Store)
    (req : BookRequest) : BookResult × Store :=
  match findRoomById s.rooms req.roomId with
  | none => (BookResult.notFound, s)
  | some meetingRoom =>
      if req.participants > meetingRoom.capacity then
        (BookResult.capacityExceeded, s)
      else
        match conflictQuery snapshot req.roomId req.startTime req.endTime with
        | _ :: _ => (BookResult.slotConflict, s)
        | [] =>
            let newBooking : Booking :=
              { meetingRoom := req.roomId, bookedBy := req.bookedBy,
                participants := req.participants, startTime := req.startTime,
                endTime := req.endTime }
            let rooms' := s.rooms.map (fun r =>
              if r.id == req.roomId then { r with lastBooked := req.now } else r)
            (BookResult.booked newBooking,
             { rooms := rooms', bookings := s.bookings ++ [newBooking] })

/-- `bookMeetingRoom` from `controllers/meetingRoomController.js`: look the
room up, reject if `participants > capacity`, reject if the overlap query is
nonempty, otherwise save the new booking and update the room. -/
def bookMeetingRoom (s : Store) (req : BookRequest) : BookResult × Store :=
  bookWithSnapshot s.bookings s req

/-- A sequence of sequential `bookMeetingRoom` calls, each seeing the state
the previous one left (successful or not). -/
def runBooks (s : Store) (reqs : List BookRequest) : Store :=
  reqs.foldl (fun s' req => (bookMeetingRoom s' req).2) s

/-- The committed bookings of one room. -/
def roomBookings (s : Store) (roomId : Nat) : List Booking :=
  s.bookings.filter (fun b => b.meetingRoom == roomId)

/-- The spec's per-room invariant: committed bookings of a room are pairwise
non-overlapping under the half-open predicate. -/
def RoomNoOverlap (s : Store) (roomId : Nat) : Prop :=
  (roomBookings s roomId).Pairwise (fun b1 b2 =>
    ¬ overlapsHalfOpen b1.startTime b1.endTime b2.startTime b2.endTime)

instance (s : Store) (roomId : Nat) : Decidable (RoomNoOverlap s roomId) := by
  unfold RoomNoOverlap; infer_instance

/-! ## Room suggestion (suggestMeetingRoom) -/

/-- The composite sort key of `MeetingRoom.find(...).sort({ capacity: 1,
lastBooked: 1 })`: capacity ascending, then `lastBooked` ascending. A total
preorder; the query specifies no further tie-break. -/
def roomLE (r1 r2 : MeetingRoom) : Prop :=
  r1.capacity < r2.capacity ∨
    (r1.capacity = r2.capacity ∧ r1.lastBooked ≤ r2.lastBooked)

instance : DecidableRel roomLE := fun _ _ => by unfold roomLE; infer_instance

instance : IsTotal MeetingRoom roomLE :=
  ⟨fun a b => by unfold roomLE; omega⟩

instance : IsTrans MeetingRoom roomLE :=
  ⟨fun a b c hab hbc => by unfold roomLE at *; omega⟩

/-- `suggestMeetingRoom`: `MeetingRoom.find({capacity: {$gte: participants}})
.sort({capacity: 1, lastBooked: 1})`, then the first result, or a 404 when
the filtered list is empty. The store returns rooms in stored order; the
sort is modeled as a stable sort by the composite key. -/
def suggestMeetingRoom (s : Store) (participants : Int) :
    Option MeetingRoom :=
  ((s.rooms.filter (fun r => decide (participants ≤ r.capacity))).insertionSort
    roomLE).head?

/-! ## Lemmas about layout lookup and the merge fold -/

theorem getL_assignL_self {α : Type} (L : Layout α) (k : String)
    (v : LayoutElement α) : getL (assignL L k v) k = some v := by
  induction L with
  | nil => simp [assignL, getL]
  | cons p rest ih =>
      obtain ⟨k', v'⟩ := p
      by_cases h : k' = k
      · simp [assignL, getL, h]
      · simp [assignL, getL, h, ih]

theorem getL_assignL_ne {α : Type} (L : Layout α) (k k'' : String)
    (v : LayoutElement α) (h : k ≠ k'') :
    getL (assignL L k v) k'' = getL L k'' := by
  induction L with
  | nil => simp [assignL, getL, h]
  | cons p rest ih =>
      obtain ⟨k', v'⟩ := p
      by_cases hk : k' = k
      · subst hk
        simp [assignL, getL, h]
      · simp [assignL, getL, hk, ih]

theorem keysL_cons {α : Type} (p : String × LayoutElement α)
    (rest : Layout α) : keysL (p :: rest) = p.1 :: keysL rest := rfl

theorem getL_eq_none_iff {α : Type} (L : Layout α) (k : String) :
    getL L k = none ↔ k ∉ keysL L := by
  induction L with
  | nil => simp [getL, keysL]
  | cons p rest ih =>
      obtain ⟨k', v'⟩ := p
      rw [keysL_cons]
      by_cases h : k' = k
      · subst h
        simp [getL]
      · have hstep : getL ((k', v') :: rest) k = getL rest k := by
          simp [getL, h]
        rw [hstep, ih, List.mem_cons]
        have hne : ¬ k = k' := fun he => h he.symm
        tauto

theorem getL_some_mem {α : Type} (L : Layout α) (k : String)
    (v : LayoutElement α) (h : getL L k = some v) : (k, v) ∈ L := by
  induction L with
  | nil => simp [getL] at h
  | cons p rest ih =>
      obtain ⟨k', v'⟩ := p
      by_cases hk : k' = k
      · subst hk
        simp [getL] at h
        simp [h]
      · simp [getL, hk] at h
        exact List.mem_cons_of_mem _ (ih h)

theorem getL_of_nodup_mem {α : Type} (L : Layout α) (k : String)
    (v : LayoutElement α) (hnd : NodupKeysL L) (hm : (k, v) ∈ L) :
    getL L k = some v := by
  induction L with
  | nil => simp at hm
  | cons p rest ih =>
      obtain ⟨k', v'⟩ := p
      have hnd' : k' ∉ keysL rest ∧ (keysL rest).Nodup := by
        simpa [NodupKeysL, keysL] using hnd
      rcases List.mem_cons.1 hm with h | h
      · have hk : k = k' := by
          have := congrArg Prod.fst h
          simpa using this
        have hv : v = v' := by
          have := congrArg Prod.snd h
          simpa using this
        subst hk
        subst hv
        simp [getL]
      · have hkmem : k ∈ keysL rest := by
          simp [keysL]
          exact ⟨v, h⟩
        have hk : k' ≠ k := fun he => hnd'.1 (he ▸ hkmem)
        simp [getL, hk]
        exact ih hnd'.2 h

theorem getL_foldl_of_not_mem {α : Type} (L : Layout α) (R : Layout α)
    (acc : Layout α) (k : String) (h : k ∉ keysL R) :
    getL (R.foldl (resolveStep L) acc) k = getL acc k := by
  induction R generalizing acc with
  | nil => rfl
  | cons p R' ih =>
      obtain ⟨k₀, v₀⟩ := p
      have h1 : k ≠ k₀ := by
        intro he
        exact h (by simp [keysL, he])
      have h2 : k ∉ keysL R' := by
        intro he
        exact h (by simp [keysL] at he ⊢; exact Or.inr he)
      rw [List.foldl_cons, ih _ h2]
      unfold resolveStep
      cases getL L k₀ with
      | none => exact getL_assignL_ne _ _ _ _ (fun he => h1 he.symm)
      | some e =>
          by_cases ht : v₀.timestamp > e.timestamp
          · simp only [ht, if_true]
            exact getL_assignL_ne _ _ _ _ (fun he => h1 he.symm)
          · simp only [ht, if_false]

theorem getL_resolveStep_ne {α : Type} (L acc : Layout α)
    (p : String × LayoutElement α) (k : String) (h : p.1 ≠ k) :
    getL (resolveStep L acc p) k = getL acc k := by
  unfold resolveStep
  cases getL L p.1 with
  | none => exact getL_assignL_ne _ _ _ _ h
  | some e =>
      by_cases ht : p.2.timestamp > e.timestamp
      · simp only [ht, if_true]
        exact getL_assignL_ne _ _ _ _ h
      · simp only [ht, if_false]

theorem getL_foldl_of_mem {α : Type} (L : Layout α) (R : Layout α)
    (acc : Layout α) (k : String) (v : LayoutElement α)
    (hnd : NodupKeysL R) (hm : (k, v) ∈ R) :
    getL (R.foldl (resolveStep L) acc) k =
      match getL L k with
      | some e => if v.timestamp > e.timestamp then some v else getL acc k
      | none => some v := by
  induction R generalizing acc with
  | nil => simp at hm
  | cons p R' ih =>
      obtain ⟨k₀, v₀⟩ := p
      have hnd' : k₀ ∉ keysL R' ∧ (keysL R').Nodup := by
        have := hnd
        rw [NodupKeysL, keysL_cons] at this
        simpa using this
      rw [List.foldl_cons]
      rcases List.mem_cons.1 hm with h | h
      · have hk : k = k₀ := by
          have := congrArg Prod.fst h
          simpa using this
        have hv : v = v₀ := by
          have := congrArg Prod.snd h
          simpa using this
        subst hk
        subst hv
        rw [getL_foldl_of_not_mem L R' _ k hnd'.1]
        unfold resolveStep
        cases getL L k with
        | none => exact getL_assignL_self _ _ _
        | some e =>
            by_cases ht : v.timestamp > e.timestamp
            · simp only [ht, if_true]
              exact getL_assignL_self _ _ _
            · simp only [ht, if_false]
      · have hkmem : k ∈ keysL R' := by
          rw [keysL]
          exact List.mem_map_of_mem Prod.fst h
        have hk : k₀ ≠ k := fun he => hnd'.1 (he ▸ hkmem)
        rw [ih _ hnd'.2 h, getL_resolveStep_ne L acc (k₀, v₀) k hk]

theorem getL_resolveConflicts {α : Type} (L R : Layout α)
    (hR : NodupKeysL R) (k : String) :
    getL (resolveConflicts L R) k =
      match getL L k, getL R k with
      | some e, some r => if r.timestamp > e.timestamp then some r else some e
      | some e, none => some e
      | none, some r => some r
      | none, none => none := by
  unfold resolveConflicts
  cases hr : getL R k with
  | none =>
      rw [getL_foldl_of_not_mem L R L k ((getL_eq_none_iff R k).1 hr)]
      cases getL L k <;> rfl
  | some r =>
      rw [getL_foldl_of_mem L R L k r hR (getL_some_mem R k r hr)]
      cases he : getL L k with
      | none => rfl
      | some e =>
          by_cases ht : r.timestamp > e.timestamp
          · simp [ht]
          · simp [ht, he]

theorem foldl_resolveStep_id {α : Type} (L : Layout α) (R : Layout α)
    (acc : Layout α) (h : ∀ p ∈ R, ∀ a : Layout α, resolveStep L a p = a) :
    R.foldl (resolveStep L) acc = acc := by
  induction R generalizing acc with
  | nil => rfl
  | cons p R' ih =>
      rw [List.foldl_cons, h p (List.mem_cons_self p R')]
      exact ih _ (fun q hq a => h q (List.mem_cons_of_mem p hq) a)

/-! ## Claims about the layout merge -/

/-- C9: merging a layout with itself returns the input layout unchanged
(`merge(A, A) == A`), for every layout with unique keys (as JS objects have). -/
theorem merge_idempotent {α : Type} (A : Layout α) (hA : NodupKeysL A) :
    resolveConflicts A A = A := by
  apply foldl_resolveStep_id
  intro p hp a
  obtain ⟨k, v⟩ := p
  have hg : getL A k = some v := getL_of_nodup_mem A k v hA hp
  simp [resolveStep, hg]

/-- Witness for C9: a concrete two-key layout merged with itself is itself. -/
theorem merge_idempotent_witness :
    resolveConflicts
      [("a", (⟨1, 3⟩ : LayoutElement Nat)), ("b", ⟨2, 4⟩)]
      [("a", ⟨1, 3⟩), ("b", ⟨2, 4⟩)] =
      [("a", ⟨1, 3⟩), ("b", ⟨2, 4⟩)] :=
  merge_idempotent _ (by decide)

/-- Counterexample to C2 as stated: with key "k" present in both layouts at
exactly equal timestamps, `resolveConflicts` keeps the local (existing)
element `⟨1, 5⟩`, not the remote one `⟨2, 5⟩` — the claim says the remote
element wins exact ties. -/
theorem merge_tie_remote_cex :
    getL (resolveConflicts [("k", (⟨1, 5⟩ : LayoutElement Nat))]
        [("k", ⟨2, 5⟩)]) "k" = some ⟨1, 5⟩ ∧
      getL [("k", (⟨2, 5⟩ : LayoutElement Nat))] "k" = some ⟨2, 5⟩ ∧
      (⟨1, 5⟩ : LayoutElement Nat) ≠ ⟨2, 5⟩ := by
  decide

/-- C2 (amended): for every key in the union of the two layouts,
`resolveConflicts` returns the sole element when the key is in only one
input, the element with the strictly larger timestamp when in both with
different timestamps, and the LOCAL (existing) element when the timestamps
are exactly equal. -/
theorem merge_per_key_resolution {α : Type} (L R : Layout α) (k : String)
    (hR : NodupKeysL R) :
    (getL L k = none → getL (resolveConflicts L R) k = getL R k) ∧
    (getL R k = none → getL (resolveConflicts L R) k = getL L k) ∧
    (∀ l r, getL L k = some l → getL R k = some r →
      l.timestamp < r.timestamp → getL (resolveConflicts L R) k = some r) ∧
    (∀ l r, getL L k = some l → getL R k = some r →
      r.timestamp < l.timestamp → getL (resolveConflicts L R) k = some l) ∧
    (∀ l r, getL L k = some l → getL R k = some r →
      l.timestamp = r.timestamp → getL (resolveConflicts L R) k = some l) := by
  have hw := getL_resolveConflicts L R hR k
  refine ⟨?_, ?_, ?_, ?_, ?_⟩
  · intro h
    rw [hw, h]
    cases getL R k <;> rfl
  · intro h
    rw [hw, h]
    cases getL L k <;> rfl
  · intro l r hl hr hlt
    rw [hw, hl, hr]
    simp [show r.timestamp > l.timestamp from hlt]
  · intro l r hl hr hlt
    rw [hw, hl, hr]
    simp [show ¬ r.timestamp > l.timestamp by omega]
  · intro l r hl hr heq
    rw [hw, hl, hr]
    simp [show ¬ r.timestamp > l.timestamp by omega]

/-- Witness for C2 (amended), at the exact-tie clause: equal timestamps keep
the local element. -/
theorem merge_per_key_resolution_witness :
    getL (resolveConflicts [("a", (⟨1, 3⟩ : LayoutElement Nat))]
      [("a", ⟨2, 3⟩)]) "a" = some ⟨1, 3⟩ :=
  (merge_per_key_resolution [("a", (⟨1, 3⟩ : LayoutElement Nat))]
      [("a", ⟨2, 3⟩)] "a" (by decide)).2.2.2.2
    ⟨1, 3⟩ ⟨2, 3⟩ (by decide) (by decide) (by decide)

/-- Counterexample to C3 as stated: two one-key layouts with equal timestamps
but different values merge to different results depending on argument order,
so `merge(A, B) == merge(B, A)` fails exactly in the tie case the claim
includes. -/
theorem merge_comm_cex :
    resolveConflicts [("k", (⟨1, 5⟩ : LayoutElement Nat))] [("k", ⟨2, 5⟩)] ≠
      resolveConflicts [("k", ⟨2, 5⟩)] [("k", ⟨1, 5⟩)] := by
  decide

/-- C3 (amended): merge is commutative up to per-key lookup (extensional
equality) provided no key is present in both layouts with exactly equal
timestamps but different elements; with such a tie the two orders differ
(see the counterexample). -/
theorem merge_comm_of_tie_agreement {α : Type} (L R : Layout α)
    (hL : NodupKeysL L) (hR : NodupKeysL R)
    (hAgree : ∀ k l r, getL L k = some l → getL R k = some r →
      l.timestamp = r.timestamp → l = r) (k : String) :
    getL (resolveConflicts L R) k = getL (resolveConflicts R L) k := by
  rw [getL_resolveConflicts L R hR k, getL_resolveConflicts R L hL k]
  cases hl : getL L k with
  | none => cases hr : getL R k <;> rfl
  | some l =>
      cases hr : getL R k with
      | none => rfl
      | some r =>
          rcases lt_trichotomy l.timestamp r.timestamp with h | h | h
          · simp [show r.timestamp > l.timestamp from h,
              show ¬ l.timestamp > r.timestamp by omega]
          · have he : l = r := hAgree k l r hl hr h
            subst he
            simp
          · simp [show ¬ r.timestamp > l.timestamp by omega,
              show l.timestamp > r.timestamp from h]

/-- Witness for C3 (amended): disjoint-key layouts merge the same both ways
at key "a". -/
theorem merge_comm_of_tie_agreement_witness :
    getL (resolveConflicts [("a", (⟨1, 3⟩ : LayoutElement Nat))]
        [("b", ⟨2, 4⟩)]) "a" =
      getL (resolveConflicts [("b", (⟨2, 4⟩ : LayoutElement Nat))]
        [("a", ⟨1, 3⟩)]) "a" :=
  merge_comm_of_tie_agreement [("a", (⟨1, 3⟩ : LayoutElement Nat))]
    [("b", ⟨2, 4⟩)] (by decide) (by decide)
    (by
      intro k l r hl hr hts
      by_cases hbk : ("b" : String) = k
      · rw [← hbk] at hl
        simp [getL, show ¬ ("a" : String) = "b" by decide] at hl
      · simp [getL, hbk] at hr) "a"

/-! ## Claims about the overlap predicate -/

/-- Counterexample to C4 as stated: for the degenerate pair of intervals
a = b = [0, 0) the source's three-clause test holds (containment clauses)
while the canonical half-open predicate does not, so the two are not
logically equivalent over all pairs of intervals. -/
theorem overlap_equiv_cex :
    ¬ (srcOverlapCheck 0 0 0 0 ↔ overlapsHalfOpen 0 0 0 0) := by
  decide

/-- C4 (amended): for proper intervals — candidate `[aS, aE)` and stored
booking `[bS, bE)` with `start < end` on both — the source's three-clause
test is logically equivalent to the canonical half-open predicate
`a.start < b.end AND b.start < a.end`. -/
theorem overlap_clauses_equiv_canonical (aS aE bS bE : Int)
    (ha : aS < aE) (hb : bS < bE) :
    srcOverlapCheck bS bE aS aE ↔ overlapsHalfOpen aS aE bS bE := by
  unfold srcOverlapCheck overlapsHalfOpen
  omega

/-- Witness for C4 (amended) on the proper intervals [1,3) and [2,4). -/
theorem overlap_clauses_equiv_canonical_witness :
    srcOverlapCheck 2 4 1 3 ↔ overlapsHalfOpen 1 3 2 4 :=
  overlap_clauses_equiv_canonical 1 3 2 4 (by decide) (by decide)

/-! ## Claims about bookMeetingRoom -/

/-- C10: booking a room identity absent from the store returns the 404
`notFound` result and leaves the store untouched, whatever the participant
count and times are. -/
theorem book_unknown_room_notFound (s : Store) (req : BookRequest)
    (h : findRoomById s.rooms req.roomId = none) :
    bookMeetingRoom s req = (BookResult.notFound, s) := by
  unfold bookMeetingRoom bookWithSnapshot
  rw [h]

/-- Witness for C10: a store holding only room 2; a request for room 1 whose
participant count even exceeds every capacity is still answered `notFound`
with the store unchanged. -/
theorem book_unknown_room_notFound_witness :
    bookMeetingRoom ⟨[⟨2, 4, 0⟩], []⟩ ⟨1, "u", 10, 0, 1, 5⟩ =
      (BookResult.notFound, ⟨[⟨2, 4, 0⟩], []⟩) :=
  book_unknown_room_notFound _ _ (by decide)

/-- C7: every rejected call — `notFound`, `capacityExceeded` or
`slotConflict` — creates no booking and modifies no room: the store after
the call is the store before it. -/
theorem book_rejection_state_unchanged (s : Store) (req : BookRequest)
    (h : (bookMeetingRoom s req).1 = BookResult.notFound ∨
         (bookMeetingRoom s req).1 = BookResult.capacityExceeded ∨
         (bookMeetingRoom s req).1 = BookResult.slotConflict) :
    (bookMeetingRoom s req).2 = s := by
  unfold bookMeetingRoom bookWithSnapshot at h ⊢
  cases hfind : findRoomById s.rooms req.roomId with
  | none => simp [hfind]
  | some room =>
      by_cases hcap : req.participants > room.capacity
      · simp [hfind, hcap]
      · cases hq : conflictQuery s.bookings req.roomId req.startTime
            req.endTime with
        | nil =>
            exfalso
            simp [hfind, hcap, hq] at h
        | cons b bs => simp [hfind, hcap, hq]

/-- Witness for C7: a capacity-exceeded request (5 participants, capacity 4)
leaves the concrete store unchanged. -/
theorem book_rejection_state_unchanged_witness :
    (bookMeetingRoom ⟨[⟨1, 4, 0⟩], []⟩ ⟨1, "u", 5, 0, 1, 9⟩).2 =
      ⟨[⟨1, 4, 0⟩], []⟩ :=
  book_rejection_state_unchanged ⟨[⟨1, 4, 0⟩], []⟩ ⟨1, "u", 5, 0, 1, 9⟩
    (Or.inr (Or.inl (by decide)))

/-- C8 (the code at the spec's required behavior): `bookMeetingRoom` has no
per-room exclusion, so when two conflicting calls both run their
`Booking.find` query before either write (schedule R1 R2 W1 W2, modeled by
passing both the pre-state's bookings as their query snapshot), BOTH calls
return a 201 `booked` result and the room ends with two overlapping
committed bookings — the spec requires that exactly one succeed. -/
theorem book_race_both_commit :
    (bookWithSnapshot (Store.mk [⟨1, 4, 0⟩] []).bookings
        (Store.mk [⟨1, 4, 0⟩] []) ⟨1, "alice", 2, 10, 11, 50⟩).1 =
      BookResult.booked ⟨1, "alice", 2, 10, 11⟩ ∧
    (bookWithSnapshot (Store.mk [⟨1, 4, 0⟩] []).bookings
        (bookWithSnapshot (Store.mk [⟨1, 4, 0⟩] []).bookings
          (Store.mk [⟨1, 4, 0⟩] []) ⟨1, "alice", 2, 10, 11, 50⟩).2
        ⟨1, "bob", 2, 10, 11, 51⟩).1 =
      BookResult.booked ⟨1, "bob", 2, 10, 11⟩ ∧
    ¬ RoomNoOverlap
        (bookWithSnapshot (Store.mk [⟨1, 4, 0⟩] []).bookings
          (bookWithSnapshot (Store.mk [⟨1, 4, 0⟩] []).bookings
            (Store.mk [⟨1, 4, 0⟩] []) ⟨1, "alice", 2, 10, 11, 50⟩).2
          ⟨1, "bob", 2, 10, 11, 51⟩).2 1 := by
  decide

/-- If the conflict query returned nothing, the newly committed booking does
not overlap (half-open) any committed booking of its room. -/
theorem query_nil_no_overlap (bookings : List Booking) (roomId : Nat)
    (startTime endTime : Int)
    (hq : conflictQuery bookings roomId startTime endTime = [])
    (x : Booking) (hx : x ∈ bookings) (hxr : x.meetingRoom = roomId) :
    ¬ overlapsHalfOpen x.startTime x.endTime startTime endTime := by
  have hall := List.filter_eq_nil_iff.1 hq x hx
  simp [hxr] at hall
  unfold overlapsHalfOpen
  unfold srcOverlapCheck at hall
  omega

/-- One `bookMeetingRoom` call preserves the per-room no-overlap invariant. -/
theorem book_step_no_overlap (s : Store) (req : BookRequest) (roomId : Nat)
    (h : RoomNoOverlap s roomId) :
    RoomNoOverlap (bookMeetingRoom s req).2 roomId := by
  unfold bookMeetingRoom bookWithSnapshot
  cases hfind : findRoomById s.rooms req.roomId with
  | none => exact h
  | some room =>
      by_cases hcap : req.participants > room.capacity
      · simp only [hcap, if_true]
        exact h
      · simp only [hcap, if_false]
        cases hq : conflictQuery s.bookings req.roomId req.startTime
            req.endTime with
        | cons b bs => exact h
        | nil =>
            unfold RoomNoOverlap roomBookings at h ⊢
            simp only [List.filter_append]
            by_cases hr : req.roomId = roomId
            · subst hr
              rw [List.pairwise_append]
              refine ⟨h, ?_, ?_⟩
              · simp [List.filter, List.pairwise_singleton]
              · intro x hx y hy
                have hxm := (List.mem_filter.1 hx).1
                have hxr : x.meetingRoom = req.roomId := by
                  simpa using (List.mem_filter.1 hx).2
                simp [List.filter] at hy
                subst hy
                exact query_nil_no_overlap s.bookings req.roomId req.startTime
                  req.endTime hq x hxm hxr
            · have hnil : (List.filter
                  (fun b : Booking => b.meetingRoom == roomId)
                  ([⟨req.roomId, req.bookedBy, req.participants,
                    req.startTime, req.endTime⟩] : List Booking)) = [] := by
                have hb : (req.roomId == roomId) = false := by
                  simp [hr]
                simp [List.filter, hb]
              rw [hnil, List.append_nil]
              exact h

/-- C1: starting from a store whose committed bookings for a room are
pairwise non-overlapping under the half-open predicate, any sequence of
sequential `bookMeetingRoom` calls (each rejected call leaves the store
unchanged, each successful one first passes the overlap query) keeps that
room's committed bookings pairwise non-overlapping. -/
theorem book_preserves_room_no_overlap (s : Store) (reqs : List BookRequest)
    (roomId : Nat) (h : RoomNoOverlap s roomId) :
    RoomNoOverlap (runBooks s reqs) roomId := by
  induction reqs generalizing s with
  | nil => exact h
  | cons r rest ih =>
      have hstep : runBooks s (r :: rest) =
          runBooks (bookMeetingRoom s r).2 rest := by
        simp [runBooks]
      rw [hstep]
      exact ih _ (book_step_no_overlap s r roomId h)

/-- Witness for C1: a room with one committed booking [10,11) takes a
back-to-back booking [11,12) and stays non-overlapping. -/
theorem book_preserves_room_no_overlap_witness :
    RoomNoOverlap
      (runBooks ⟨[⟨1, 4, 0⟩], [⟨1, "w", 2, 10, 11⟩]⟩
        [⟨1, "y", 2, 11, 12, 100⟩]) 1 :=
  book_preserves_room_no_overlap ⟨[⟨1, 4, 0⟩], [⟨1, "w", 2, 10, 11⟩]⟩
    [⟨1, "y", 2, 11, 12, 100⟩] 1 (by decide)

/-- The two-key sort order bounds capacity: an earlier room never has larger
capacity. -/
theorem roomLE_capacity_le (r r' : MeetingRoom) (h : roomLE r r') :
    r.capacity ≤ r'.capacity := by
  unfold roomLE at h
  omega

/-- C5: the suggestion endpoint returns no room exactly when no candidate has
sufficient capacity; otherwise it returns a sufficient room of smallest
sufficient capacity (best fit: no sufficient room with strictly smaller
capacity exists). -/
theorem suggest_best_fit (s : Store) (n : Int) :
    ((∀ r ∈ s.rooms, r.capacity < n) → suggestMeetingRoom s n = none) ∧
    ((∃ r ∈ s.rooms, n ≤ r.capacity) →
      ∃ r, suggestMeetingRoom s n = some r ∧ r ∈ s.rooms ∧ n ≤ r.capacity ∧
        ∀ r' ∈ s.rooms, n ≤ r'.capacity → r.capacity ≤ r'.capacity) := by
  constructor
  · intro hall
    have hfil : s.rooms.filter (fun r => decide (n ≤ r.capacity)) = [] := by
      rw [List.filter_eq_nil_iff]
      intro r hr
      have := hall r hr
      simp
      omega
    unfold suggestMeetingRoom
    rw [hfil]
    rfl
  · rintro ⟨r0, hr0, hcap0⟩
    unfold suggestMeetingRoom
    have hr0f : r0 ∈ s.rooms.filter (fun r => decide (n ≤ r.capacity)) := by
      rw [List.mem_filter]
      exact ⟨hr0, by simpa using hcap0⟩
    have hperm := List.perm_insertionSort roomLE
      (s.rooms.filter (fun r => decide (n ≤ r.capacity)))
    have hsorted := List.sorted_insertionSort roomLE
      (s.rooms.filter (fun r => decide (n ≤ r.capacity)))
    cases hsort : (s.rooms.filter
        (fun r => decide (n ≤ r.capacity))).insertionSort roomLE with
    | nil =>
        exfalso
        rw [hsort] at hperm
        exact absurd (hperm.symm.subset hr0f) (List.not_mem_nil r0)
    | cons a t =>
        rw [hsort] at hperm hsorted
        have haf : a ∈ s.rooms.filter (fun r => decide (n ≤ r.capacity)) :=
          hperm.subset (List.mem_cons_self a t)
        have ham := (List.mem_filter.1 haf).1
        have hacap : n ≤ a.capacity := by
          simpa using (List.mem_filter.1 haf).2
        refine ⟨a, rfl, ham, hacap, ?_⟩
        intro r' hr' hcap'
        have hr'f : r' ∈ s.rooms.filter (fun r => decide (n ≤ r.capacity)) := by
          rw [List.mem_filter]
          exact ⟨hr', by simpa using hcap'⟩
        have : r' ∈ a :: t := hperm.symm.subset hr'f
        rcases List.mem_cons.1 this with he | ht
        · rw [he]
        · exact roomLE_capacity_le a r'
            (List.rel_of_sorted_cons hsorted r' ht)

/-- Witness for C5: rooms of capacity 4 and 6, request for 3 — the returned
room exists, suffices, and no sufficient room is smaller. -/
theorem suggest_best_fit_witness :
    ∃ r, suggestMeetingRoom ⟨[⟨1, 4, 0⟩, ⟨2, 6, 0⟩], []⟩ 3 = some r ∧
      r ∈ (Store.mk [⟨1, 4, 0⟩, ⟨2, 6, 0⟩] []).rooms ∧ (3 : Int) ≤ r.capacity ∧
      ∀ r' ∈ (Store.mk [⟨1, 4, 0⟩, ⟨2, 6, 0⟩] []).rooms,
        (3 : Int) ≤ r'.capacity → r.capacity ≤ r'.capacity :=
  (suggest_best_fit ⟨[⟨1, 4, 0⟩, ⟨2, 6, 0⟩], []⟩ 3).2
    ⟨⟨1, 4, 0⟩, by decide, by decide⟩

/-- Counterexample to C6 as stated: two rooms tying on capacity and
lastBooked are NOT resolved by identity — the code sorts only by
`(capacity, lastBooked)`, so the same candidate set in two stored orders
yields two different rooms, and the second order returns identity 2 even
though identity 1 is available. -/
theorem suggest_identity_tiebreak_cex :
    suggestMeetingRoom ⟨[⟨1, 4, 0⟩, ⟨2, 4, 0⟩], []⟩ 3 = some ⟨1, 4, 0⟩ ∧
    suggestMeetingRoom ⟨[⟨2, 4, 0⟩, ⟨1, 4, 0⟩], []⟩ 3 = some ⟨2, 4, 0⟩ ∧
    (⟨1, 4, 0⟩ : MeetingRoom) ≠ ⟨2, 4, 0⟩ := by
  decide

/-- C6 (amended): selection is deterministic only as a function of the
candidate list in stored order: the returned room is a minimum of the
sufficient rooms under the two-key total preorder `(capacity ascending,
lastBooked ascending)`; the code has no identity tie-break, so rooms tying
on both keys are resolved by stored position (see the counterexample). -/
theorem suggest_minimal_two_key (s : Store) (n : Int) (r : MeetingRoom)
    (h : suggestMeetingRoom s n = some r) :
    r ∈ s.rooms ∧ n ≤ r.capacity ∧
      ∀ r' ∈ s.rooms, n ≤ r'.capacity → roomLE r r' := by
  unfold suggestMeetingRoom at h
  have hperm := List.perm_insertionSort roomLE
    (s.rooms.filter (fun q => decide (n ≤ q.capacity)))
  have hsorted := List.sorted_insertionSort roomLE
    (s.rooms.filter (fun q => decide (n ≤ q.capacity)))
  cases hsort : (s.rooms.filter
      (fun q => decide (n ≤ q.capacity))).insertionSort roomLE with
  | nil =>
      rw [hsort] at h
      simp at h
  | cons a t =>
      rw [hsort] at h hperm hsorted
      have ha : a = r := by simpa using h
      subst ha
      have haf : a ∈ s.rooms.filter (fun q => decide (n ≤ q.capacity)) :=
        hperm.subset (List.mem_cons_self a t)
      refine ⟨(List.mem_filter.1 haf).1, by simpa using (List.mem_filter.1 haf).2, ?_⟩
      intro r' hr' hcap'
      have hr'f : r' ∈ s.rooms.filter (fun q => decide (n ≤ q.capacity)) := by
        rw [List.mem_filter]
        exact ⟨hr', by simpa using hcap'⟩
      rcases List.mem_cons.1 (hperm.symm.subset hr'f) with he | ht
      · rw [he]
        exact Or.inr ⟨rfl, le_refl _⟩
      · exact List.rel_of_sorted_cons hsorted r' ht

/-- Witness for C6 (amended): a single sufficient room is returned and is
minimal under the two-key order. -/
theorem suggest_minimal_two_key_witness :
    (⟨1, 4, 0⟩ : MeetingRoom) ∈ (Store.mk [⟨1, 4, 0⟩] []).rooms ∧
      (3 : Int) ≤ (⟨1, 4, 0⟩ : MeetingRoom).capacity ∧
      ∀ r' ∈ (Store.mk [⟨1, 4, 0⟩] []).rooms,
        (3 : Int) ≤ r'.capacity → roomLE ⟨1, 4, 0⟩ r' :=
  suggest_minimal_two_key ⟨[⟨1, 4, 0⟩], []⟩ 3 ⟨1, 4, 0⟩ (by decide)
